import Mathlib

/-!
Verification development for the ChimeraTK/ApplicationCore Python binding
and test layer.

The repository's own Python files construct module graphs and assert
behaviour of the externally implemented framework primitives
(ReadAnyGroup, DataConsistencyGroup, VersionNumber).  Those primitives are
code of this repository that is not shipped under the analysed source
tree; following the spec, they are modelled here from the spec's own
description and checked against the behaviour the test scripts assert.
The connectivity visualizer (tools/drawModuleConnections.py) is present in
the source tree and is embedded directly.
-/

/-- An update event: the result of one synchronization wait.  Identifies
which channel produced new data and carries that channel's new value and
version (spec section 3, UpdateEvent).  Channels are opaque stable
identifiers, modelled as naturals; version markers are modelled as
naturals (only ordering and equality of markers is observable). -/
structure UpdateEvent where
  channel : Nat
  value : Int
  version : Nat
  deriving Repr, DecidableEq

/-- Modelled from the spec: the exact-mode DataConsistencyGroup, whose
implementation lives in the external native framework.  It owns a set of
member channels and an internal "latest version per channel" ledger
(spec sections 3 and 4.2). -/
structure DataConsistencyGroupExact where
  members : List Nat
  ledger : Nat → Option Nat

/-- Modelled from the spec: a freshly created exact-mode group over the
given member channels; no channel has been observed yet, so every ledger
entry is missing. -/
def DataConsistencyGroupExact.init (members : List Nat) : DataConsistencyGroupExact :=
  { members := members, ledger := fun _ => none }

/-- Modelled from the spec: exact-mode `update(event)` — records the
event's version against its channel in the ledger, then returns true iff
every member channel's ledger entry is set and all entries are equal to
the event's version (spec section 4.2).  Returns the boolean result
together with the updated group state. -/
def DataConsistencyGroupExact.update (g : DataConsistencyGroupExact) (e : UpdateEvent) :
    Bool × DataConsistencyGroupExact :=
  let ledger' : Nat → Option Nat := fun c => if c = e.channel then some e.version else g.ledger c
  let matched := g.members.all fun c => ledger' c == some e.version
  (matched, { members := g.members, ledger := ledger' })

/-- The booleans returned by a sequence of exact-mode `update` calls,
starting from the given group state. -/
def DataConsistencyGroupExact.runUpdates (g : DataConsistencyGroupExact)
    (es : List UpdateEvent) : List Bool :=
  match es with
  | [] => []
  | e :: rest => (g.update e).fst :: (g.update e).snd.runUpdates rest

/-- The group state after a sequence of exact-mode `update` calls. -/
def DataConsistencyGroupExact.applyUpdates (g : DataConsistencyGroupExact)
    (es : List UpdateEvent) : DataConsistencyGroupExact :=
  match es with
  | [] => g
  | e :: rest => ((g.update e).snd).applyUpdates rest

/-- Modelled from the spec: the historized-mode DataConsistencyGroup,
whose implementation lives in the external native framework.  It owns a
set of member channels, a configured history length `N ≥ 1`, and a bounded
ring of recent versions per channel, most recent first (spec sections 3
and 4.3). -/
structure DataConsistencyGroupHistorized where
  members : List Nat
  histLen : Nat
  hist : Nat → List Nat

/-- Modelled from the spec: a freshly created historized-mode group over
the given member channels with history length `histLen`; every channel's
history ring starts empty. -/
def DataConsistencyGroupHistorized.init (members : List Nat) (histLen : Nat) :
    DataConsistencyGroupHistorized :=
  { members := members, histLen := histLen, hist := fun _ => [] }

/-- Modelled from the spec: historized-mode `update(event)` — pushes the
event's version into the firing channel's history ring, evicting the
oldest entry if the ring is full, and returns true iff every member
channel's ring contains at least one version equal to the event's version
(spec section 4.3). -/
def DataConsistencyGroupHistorized.update (g : DataConsistencyGroupHistorized)
    (e : UpdateEvent) : Bool × DataConsistencyGroupHistorized :=
  let hist' : Nat → List Nat :=
    fun c => if c = e.channel then (e.version :: g.hist c).take g.histLen else g.hist c
  let matched := g.members.all fun c => (hist' c).contains e.version
  (matched, { members := g.members, histLen := g.histLen, hist := hist' })

/-- The booleans returned by a sequence of historized-mode `update` calls,
starting from the given group state. -/
def DataConsistencyGroupHistorized.runUpdates (g : DataConsistencyGroupHistorized)
    (es : List UpdateEvent) : List Bool :=
  match es with
  | [] => []
  | e :: rest => (g.update e).fst :: (g.update e).snd.runUpdates rest

/-- The simulation relation between a historized group with window 1 and
an exact group: same members, window length 1, and every channel's history
ring is exactly the (zero- or one-element) list of its exact-ledger entry. -/
def HistOneSim (h : DataConsistencyGroupHistorized) (x : DataConsistencyGroupExact) : Prop :=
  h.members = x.members ∧ h.histLen = 1 ∧ ∀ c, h.hist c = (x.ledger c).toList


/-- The externally visible state of one channel: its current value and
version marker (spec section 3, Channel). -/
structure ChannelState where
  value : Int
  version : Nat
  deriving Repr, DecidableEq

/-- Modelled from the spec: the usage-error kind surfaced by the external
framework when a wait operation is invoked on a group whose member set has
not been finalised (spec sections 4.1 and 7). -/
inductive UsageError where
  | invalidState
  deriving Repr, DecidableEq

/-- Modelled from the spec: a ReadAnyGroup, whose implementation lives in
the external native framework.  It holds the registered member channels,
a flag recording whether `finalise()` has locked the member set, the FIFO
queue of pending updates (front of the list is delivered first, FIFO by
arrival) and the externally visible current state of every channel (spec
section 4.1). -/
structure ReadAnyGroup where
  members : List Nat
  finalised : Bool
  pending : List UpdateEvent
  current : Nat → ChannelState

/-- Modelled from the spec: delivering an event pushes its value and
version into the target channel's externally visible current state as a
side effect of delivery (spec section 4.1, push semantics). -/
def deliverEvent (cur : Nat → ChannelState) (e : UpdateEvent) : Nat → ChannelState :=
  fun c => if c = e.channel then { value := e.value, version := e.version } else cur c

/-- Modelled from the spec: `readAny()` — fails with InvalidState before
`finalise()`; otherwise delivers the oldest pending update (FIFO by
arrival), returning the identifier of the channel that fired together with
the updated group state.  The result `none` models the blocking case: no
update is pending yet, so the calling unit of execution stays suspended
(spec section 4.1). -/
def ReadAnyGroup.readAny (g : ReadAnyGroup) :
    Except UsageError (Option (Nat × ReadAnyGroup)) :=
  if g.finalised = false then .error .invalidState
  else
    match g.pending with
    | [] => .ok none
    | e :: rest =>
      .ok (some (e.channel,
        { g with pending := rest, current := deliverEvent g.current e }))

/-- Modelled from the spec: `readAnyNonBlocking()` — fails with
InvalidState before `finalise()`; otherwise returns immediately, with
`none` indicating that no update is available (spec section 4.1). -/
def ReadAnyGroup.readAnyNonBlocking (g : ReadAnyGroup) :
    Except UsageError (Option (Nat × ReadAnyGroup)) :=
  if g.finalised = false then .error .invalidState
  else
    match g.pending with
    | [] => .ok none
    | e :: rest =>
      .ok (some (e.channel,
        { g with pending := rest, current := deliverEvent g.current e }))

/-- Modelled from the spec: the delivery sweep behind `readUntil` —
repeatedly deliver pending events (dispatching each into the visible
channel states) until the target channel fires.  Returns the delivered
events, the remaining queue and the updated channel states; `none` models
the case where the target has not fired yet with the data available so
far, so the call keeps waiting (spec section 4.1). -/
def readUntilSweep (target : Nat) :
    List UpdateEvent → (Nat → ChannelState) →
      Option (List UpdateEvent × List UpdateEvent × (Nat → ChannelState))
  | [], _ => none
  | e :: rest, cur =>
    let cur' := deliverEvent cur e
    if e.channel = target then some ([e], rest, cur')
    else
      match readUntilSweep target rest cur' with
      | none => none
      | some (del, rem, c) => some (e :: del, rem, c)

/-- Modelled from the spec: `readUntil(channel)` — fails with InvalidState
before `finalise()`; otherwise repeatedly performs `readAny()`,
discarding/dispatching each event, until the target channel has been
observed at least once since the call began (spec section 4.1). -/
def ReadAnyGroup.readUntil (g : ReadAnyGroup) (target : Nat) :
    Except UsageError (Option (List UpdateEvent × ReadAnyGroup)) :=
  if g.finalised = false then .error .invalidState
  else
    .ok ((readUntilSweep target g.pending g.current).map
      fun x => (x.1, { g with pending := x.2.1, current := x.2.2 }))

/-- Modelled from the spec: the delivery sweep behind `readUntilAll` —
deliver pending events until every target channel has been observed at
least once since the call began (spec section 4.1). -/
def readUntilAllSweep :
    List Nat → List UpdateEvent → (Nat → ChannelState) →
      Option (List UpdateEvent × List UpdateEvent × (Nat → ChannelState))
  | [], pending, cur => some ([], pending, cur)
  | _ :: _, [], _ => none
  | t :: ts, e :: rest, cur =>
    let cur' := deliverEvent cur e
    match readUntilAllSweep ((t :: ts).filter fun x => x != e.channel) rest cur' with
    | none => none
    | some (del, rem, c) => some (e :: del, rem, c)

/-- Modelled from the spec: `readUntilAll(channels...)` — fails with
InvalidState before `finalise()`; otherwise repeatedly performs
`readAny()` until all target channels have been observed at least once
since the call began (spec section 4.1). -/
def ReadAnyGroup.readUntilAll (g : ReadAnyGroup) (targets : List Nat) :
    Except UsageError (Option (List UpdateEvent × ReadAnyGroup)) :=
  if g.finalised = false then .error .invalidState
  else
    .ok ((readUntilAllSweep targets g.pending g.current).map
      fun x => (x.1, { g with pending := x.2.1, current := x.2.2 }))


/-- Modelled from the spec: a VersionNumber — a totally-ordered marker
stamped on updates.  The explicit null/unspecified-origin marker
(constructed from None) carries no origin; every other marker carries the
monotonic wall/logical clock reading it was stamped with (spec section 3,
VersionNumber). -/
inductive VersionNumber where
  | null
  | stamp (t : Int)
  deriving Repr, DecidableEq

/-- Modelled from the spec: the strict comparison on VersionNumbers.  The
null marker always compares less than any other marker; two stamped
markers compare by their clock readings. -/
def VersionNumber.lt : VersionNumber → VersionNumber → Bool
  | .null, .null => false
  | .null, .stamp _ => true
  | .stamp _, .null => false
  | .stamp a, .stamp b => a < b

/-- Modelled from the spec: constructing a VersionNumber with no argument
reads the monotonic wall/logical clock and advances it, so each
default-constructed marker is stamped strictly later than every previously
default-constructed one. -/
def VersionNumber.fresh (clock : Int) : VersionNumber × Int :=
  (.stamp clock, clock + 1)

/-- The marker produced by the (i+1)-th default construction starting from
the given clock state. -/
def VersionNumber.defaultAt (clock : Int) : Nat → VersionNumber
  | 0 => (VersionNumber.fresh clock).fst
  | n + 1 => VersionNumber.defaultAt (VersionNumber.fresh clock).snd n

/-- Modelled from the spec: constructing a VersionNumber from an explicit
wall-clock time stamps the marker with that time. -/
def VersionNumber.ofTime (t : Int) : VersionNumber := .stamp t

/-- Modelled from the spec: `getTime()` returns the time the marker was
stamped with; the null marker carries no origin time. -/
def VersionNumber.getTime : VersionNumber → Option Int
  | .null => none
  | .stamp t => some t


/-- A peer entry of a variable node's connections list, as read from the
connectivity XML by tools/drawModuleConnections.py: its type, direction,
class and name attributes. -/
structure Peer where
  ptype : String
  pdir : String
  pclass : String
  pname : String
  deriving Repr, DecidableEq

/-- A variable node of the connectivity XML: its direction text and its
connection peers.  (The node's name attribute is only printed in error
messages and does not influence control flow.) -/
structure VarNode where
  direction : String
  connections : List Peer
  deriving Repr, DecidableEq

/-- The moduleConnections dictionary built by drawModuleConnections.py:
for each node label, the set of consuming node labels it feeds
(association list keyed by label, sets as duplicate-free lists). -/
abbrev ModuleConnections := List (String × List String)

/-- The label used for a peer by parseVariable: an ApplicationModule peer
is labelled by its class attribute, a Device peer by its name attribute
behind a Device: tag. -/
def peerLabel (p : Peer) : String :=
  if p.ptype = "ApplicationModule" then p.pclass else "Device:" ++ p.pname

/-- Python set.add on a set represented as a duplicate-free list. -/
def setInsert (l : List String) (v : String) : List String :=
  if v ∈ l then l else l ++ [v]

/-- The moduleConnections[k] = set() initialisation performed when k is
not yet a key. -/
def ensureKey (mc : ModuleConnections) (k : String) : ModuleConnections :=
  if mc.any fun q => q.fst = k then mc else mc ++ [(k, [])]

/-- The moduleConnections[feeder].add(m) step. -/
def addEdge (mc : ModuleConnections) (feeder m : String) : ModuleConnections :=
  mc.map fun q => if q.fst = feeder then (q.fst, setInsert q.snd m) else q

/-- The peer loop of parseVariable: walks the connections, collecting
consuming ApplicationModule/Device peers into moduleList and recording the
single feeding peer; prints "ERROR: Found two feeders!" and exits with
status 1 when a second feeding peer is seen. -/
def scanPeers : List Peer → Option String → List String →
    Except Nat (Option String × List String)
  | [], feeder, moduleList => .ok (feeder, moduleList)
  | p :: ps, feeder, moduleList =>
    if p.ptype = "ApplicationModule" ∨ p.ptype = "Device" then
      if p.pdir = "consuming" then
        scanPeers ps feeder (setInsert moduleList (peerLabel p))
      else
        if feeder.isSome then .error 1
        else scanPeers ps (some (peerLabel p)) moduleList
    else scanPeers ps feeder moduleList

/-- parseVariable from tools/drawModuleConnections.py: variables whose
direction is control_system_to_application (with or without return) are
skipped before the loop; otherwise the peers are scanned, the program
exits with status 1 when two feeders or no feeder are found
("ERROR: Found two feeders!" / "ERROR: No feeders found!"), and on
success the feeder's consumers are recorded in moduleConnections. -/
def parseVariable (mc : ModuleConnections) (node : VarNode) :
    Except Nat ModuleConnections :=
  if node.direction = "control_system_to_application" ∨
      node.direction = "control_system_to_application_with_return" then
    .ok mc
  else
    match scanPeers node.connections none [] with
    | .error k => .error k
    | .ok (none, _) => .error 1
    | .ok (some feeder, moduleList) =>
      let mc1 := moduleList.foldl ensureKey mc
      let mc2 := ensureKey mc1 feeder
      .ok (moduleList.foldl (fun acc m => addEdge acc feeder m) mc2)

/-- A peer counts as feeding when its type is ApplicationModule or Device
and its direction is not consuming (the else branch of the direction test
in parseVariable's loop). -/
def Peer.isFeeding (p : Peer) : Bool :=
  (p.ptype == "ApplicationModule" || p.ptype == "Device") && p.pdir != "consuming"

/-- The number of feeding ApplicationModule/Device peers of a variable
node. -/
def feedingPeerCount (node : VarNode) : Nat :=
  node.connections.countP Peer.isFeeding

/-- Claim C1: for every exact-mode DataConsistencyGroup state (hence after
every sequence of prior `update` calls) and every update event `e`,
`update e` records `e`'s version against `e`'s channel in the per-channel
latest-version ledger (leaving all other channels' entries unchanged), and
returns true if and only if every member channel's ledger entry is set and
equal to `e`'s version — false on any mismatch or missing entry. -/
theorem dcgExact_update_records_and_matches (g : DataConsistencyGroupExact) (e : UpdateEvent) :
    (g.update e).snd.ledger e.channel = some e.version ∧
    (∀ c, c ≠ e.channel → (g.update e).snd.ledger c = g.ledger c) ∧
    ((g.update e).fst = true ↔
      ∀ c ∈ g.members, (g.update e).snd.ledger c = some e.version) := by
  refine ⟨by simp [DataConsistencyGroupExact.update], ?_, ?_⟩
  · intro c hc
    simp [DataConsistencyGroupExact.update, hc]
  · simp only [DataConsistencyGroupExact.update, List.all_eq_true, beq_iff_eq]

/-- Witness for C1 at a concrete input: a two-member group receiving an
update for channel 1 with version 5 records the version, keeps channel 2's
(missing) entry, and reports no match because channel 2 was never seen. -/
theorem dcgExact_update_records_and_matches_witness :
    ((DataConsistencyGroupExact.init [1, 2]).update ⟨1, 0, 5⟩).snd.ledger 2 = none ∧
    ¬ (((DataConsistencyGroupExact.init [1, 2]).update ⟨1, 0, 5⟩).fst = true) := by
  have h := dcgExact_update_records_and_matches (DataConsistencyGroupExact.init [1, 2]) ⟨1, 0, 5⟩
  refine ⟨?_, ?_⟩
  · have h2 := h.2.1 2 (by decide)
    simpa [DataConsistencyGroupExact.init] using h2
  · intro hmatch
    have := (h.2.2.mp hmatch) 2 (by decide)
    have h2 := h.2.1 2 (by decide)
    rw [h2] at this
    simp [DataConsistencyGroupExact.init] at this

/-- Claim C2: the concrete three-channel scenario from the observed test.
Channels 1, 2, 3; first round delivers version 1 in the order in1, in3,
in2, then a second round delivers version 2 to in1 and in3 only.  The
third call (completing the set) returns true; both calls of the second
round return false, since in2's recorded version no longer matches.  (The
first two calls of round one return false as well, as the test asserts.) -/
theorem dcgExact_three_channel_scenario :
    (DataConsistencyGroupExact.init [1, 2, 3]).runUpdates
      [⟨1, 0, 1⟩, ⟨3, 0, 1⟩, ⟨2, 0, 1⟩, ⟨1, 0, 2⟩, ⟨3, 0, 2⟩] =
      [false, false, true, false, false] := by
  decide

lemma histOneSim_init (members : List Nat) :
    HistOneSim (DataConsistencyGroupHistorized.init members 1)
      (DataConsistencyGroupExact.init members) := by
  refine ⟨rfl, rfl, fun c => ?_⟩
  simp [DataConsistencyGroupHistorized.init, DataConsistencyGroupExact.init]

lemma all_eq_of_pointwise {γ : Type} (f g : γ → Bool) :
    ∀ xs : List γ, (∀ x ∈ xs, f x = g x) → xs.all f = xs.all g := by
  intro xs
  induction xs with
  | nil =>
    intro hpt
    rfl
  | cons y ys ih =>
    intro hpt
    have hy := hpt y (List.mem_cons_self y ys)
    have hys := ih fun z hz => hpt z (List.mem_cons_of_mem y hz)
    simp only [List.all_cons, hy, hys]

lemma histOneSim_step (h : DataConsistencyGroupHistorized) (x : DataConsistencyGroupExact)
    (hs : HistOneSim h x) (e : UpdateEvent) :
    (h.update e).fst = (x.update e).fst ∧ HistOneSim (h.update e).snd (x.update e).snd := by
  obtain ⟨hm, hl, hh⟩ := hs
  constructor
  · simp only [DataConsistencyGroupHistorized.update, DataConsistencyGroupExact.update, hm]
    refine all_eq_of_pointwise _ _ _ fun c _ => ?_
    by_cases hc : c = e.channel
    · simp [hc, hl]
    · rw [if_neg hc, if_neg hc, hh c]
      cases x.ledger c with
      | none => simp
      | some w =>
        by_cases hv : e.version = w
        · simp [hv, List.contains]
        · simp [List.contains, hv, Ne.symm hv]
  · refine ⟨hm, hl, fun c => ?_⟩
    simp only [DataConsistencyGroupHistorized.update, DataConsistencyGroupExact.update]
    by_cases hc : c = e.channel
    · simp [hc, hl]
    · simp only [if_neg hc]
      exact hh c

lemma histOneSim_run (es : List UpdateEvent) :
    ∀ (h : DataConsistencyGroupHistorized) (x : DataConsistencyGroupExact),
      HistOneSim h x → h.runUpdates es = x.runUpdates es := by
  induction es with
  | nil => intro h x _; rfl
  | cons e rest ih =>
    intro h x hs
    have step := histOneSim_step h x hs e
    simp only [DataConsistencyGroupHistorized.runUpdates, DataConsistencyGroupExact.runUpdates]
    rw [step.1, ih _ _ step.2]

/-- Claim C3: for every set of member channels and every sequence of
update events, a historized-mode group with history length 1 returns from
each `update` call exactly the same boolean as an exact-mode group over
the same members fed the same events. -/
theorem dcgHistorized_len_one_eq_exact (members : List Nat) (es : List UpdateEvent) :
    (DataConsistencyGroupHistorized.init members 1).runUpdates es =
      (DataConsistencyGroupExact.init members).runUpdates es :=
  histOneSim_run es _ _ (histOneSim_init members)

lemma dcgExact_update_members (g : DataConsistencyGroupExact) (e : UpdateEvent) :
    (g.update e).snd.members = g.members := rfl

lemma dcgExact_applyUpdates_members (es : List UpdateEvent) :
    ∀ g : DataConsistencyGroupExact, (g.applyUpdates es).members = g.members := by
  induction es with
  | nil => intro g; rfl
  | cons e rest ih =>
    intro g
    rw [DataConsistencyGroupExact.applyUpdates, ih, dcgExact_update_members]

lemma dcgExact_matched_iff (g : DataConsistencyGroupExact) (e : UpdateEvent) :
    (g.update e).fst = true ↔
      ∀ c ∈ g.members, (g.update e).snd.ledger c = some e.version := by
  simp only [DataConsistencyGroupExact.update, List.all_eq_true, beq_iff_eq]

lemma dcgExact_applyUpdates_ledger_not_mem (cs : List Nat) :
    ∀ (g : DataConsistencyGroupExact) (w c : Nat), c ∉ cs →
      (g.applyUpdates (cs.map fun ch => ⟨ch, 0, w⟩)).ledger c = g.ledger c := by
  induction cs with
  | nil => intro g w c _; rfl
  | cons a cs ih =>
    intro g w c hc
    rw [List.map_cons, DataConsistencyGroupExact.applyUpdates,
      ih _ _ _ fun h => hc (List.mem_cons_of_mem a h)]
    simp only [DataConsistencyGroupExact.update]
    rw [if_neg fun h => hc (by rw [h]; exact List.mem_cons_self a cs)]

lemma dcgExact_applyUpdates_ledger_mem (cs : List Nat) :
    ∀ (g : DataConsistencyGroupExact) (w c : Nat), c ∈ cs →
      (g.applyUpdates (cs.map fun ch => ⟨ch, 0, w⟩)).ledger c = some w := by
  induction cs with
  | nil => intro g w c hc; cases hc
  | cons a cs ih =>
    intro g w c hc
    by_cases hcs : c ∈ cs
    · rw [List.map_cons, DataConsistencyGroupExact.applyUpdates]
      exact ih _ _ _ hcs
    · have hca : c = a := by
        rcases List.mem_cons.mp hc with h | h
        · exact h
        · exact absurd h hcs
      rw [List.map_cons, DataConsistencyGroupExact.applyUpdates,
        dcgExact_applyUpdates_ledger_not_mem cs _ _ _ hcs]
      simp [DataConsistencyGroupExact.update, hca]

/-- Claim C5: the Matched state is not terminal.  For every exact-mode
group with (at least) two distinct member channels, after an `update` call
returns true, some next event makes `update` return false (the match is
re-evaluated from the current ledger), and from there some further event
sequence makes `update` return true again — so the group can alternate
between Accumulating and Matched indefinitely. -/
theorem dcgExact_matched_not_terminal (g : DataConsistencyGroupExact) (e : UpdateEvent)
    (m1 m2 : Nat) (h1 : m1 ∈ g.members) (h2 : m2 ∈ g.members) (hne : m1 ≠ m2)
    (hm : (g.update e).fst = true) :
    ∃ e1 : UpdateEvent, (((g.update e).snd.update e1).fst = false) ∧
      ∃ (es : List UpdateEvent) (e2 : UpdateEvent),
        ((((g.update e).snd.update e1).snd.applyUpdates es).update e2).fst = true := by
  have hled : ∀ c ∈ g.members, (g.update e).snd.ledger c = some e.version :=
    (dcgExact_matched_iff g e).mp hm
  refine ⟨⟨m1, 0, e.version + 1⟩, ?_, ?_⟩
  · cases hb : (((g.update e).snd.update ⟨m1, 0, e.version + 1⟩).fst) with
    | false => rfl
    | true =>
      have hthis := (dcgExact_matched_iff _ _).mp hb m2 h2
      have heq : ((g.update e).snd.update ⟨m1, 0, e.version + 1⟩).snd.ledger m2
          = (g.update e).snd.ledger m2 := by
        show (if m2 = m1 then some (e.version + 1) else (g.update e).snd.ledger m2) = _
        rw [if_neg (Ne.symm hne)]
      rw [heq, hled m2 h2] at hthis
      simp at hthis
  · refine ⟨g.members.map fun c => ⟨c, 0, e.version + 1⟩, ⟨m1, 0, e.version + 1⟩, ?_⟩
    apply (dcgExact_matched_iff _ _).mpr
    intro c hc
    have hmembers :
        ((((g.update e).snd.update ⟨m1, 0, e.version + 1⟩).snd.applyUpdates
          (g.members.map fun c => ⟨c, 0, e.version + 1⟩)).members) = g.members := by
      rw [dcgExact_applyUpdates_members, dcgExact_update_members, dcgExact_update_members]
    rw [hmembers] at hc
    show (if c = m1 then some (e.version + 1)
      else (((g.update e).snd.update ⟨m1, 0, e.version + 1⟩).snd.applyUpdates
        (g.members.map fun ch => ⟨ch, 0, e.version + 1⟩)).ledger c) = some (e.version + 1)
    by_cases hcm : c = m1
    · rw [if_pos hcm]
    · rw [if_neg hcm]
      exact dcgExact_applyUpdates_ledger_mem g.members _ _ _ hc

/-- Witness for C5 at a concrete input: a two-member group that has just
matched on version 7 can fall out of the Matched state and match again
later. -/
theorem dcgExact_matched_not_terminal_witness :
    ∃ e1 : UpdateEvent,
      (((((DataConsistencyGroupExact.init [1, 2]).update ⟨1, 0, 7⟩).snd.update
          ⟨2, 0, 7⟩).snd.update e1).fst = false) ∧
      ∃ (es : List UpdateEvent) (e2 : UpdateEvent),
        ((((((DataConsistencyGroupExact.init [1, 2]).update ⟨1, 0, 7⟩).snd.update
            ⟨2, 0, 7⟩).snd.update e1).snd.applyUpdates es).update e2).fst = true :=
  dcgExact_matched_not_terminal ((DataConsistencyGroupExact.init [1, 2]).update ⟨1, 0, 7⟩).snd
    ⟨2, 0, 7⟩ 1 2 (by decide) (by decide) (by decide) (by decide)

/-- Claim C7: for every ReadAnyGroup on which `finalise()` has not yet
been called, invoking any wait operation (`readAny`, `readAnyNonBlocking`,
`readUntil`, `readUntilAll`) fails with the InvalidState usage error — it
never silently blocks and never succeeds. -/
theorem readAnyGroup_wait_before_finalise_fails (g : ReadAnyGroup)
    (t : Nat) (ts : List Nat) (hf : g.finalised = false) :
    g.readAny = .error .invalidState ∧
    g.readAnyNonBlocking = .error .invalidState ∧
    g.readUntil t = .error .invalidState ∧
    g.readUntilAll ts = .error .invalidState := by
  refine ⟨?_, ?_, ?_, ?_⟩ <;>
    simp [ReadAnyGroup.readAny, ReadAnyGroup.readAnyNonBlocking,
      ReadAnyGroup.readUntil, ReadAnyGroup.readUntilAll, hf]

/-- Witness for C7 at a concrete input: a non-finalised group with one
registered channel and a pending update still refuses every wait
operation. -/
theorem readAnyGroup_wait_before_finalise_fails_witness :
    ReadAnyGroup.readAny
        { members := [1], finalised := false, pending := [⟨1, 12, 3⟩],
          current := fun _ => ⟨0, 0⟩ } = .error .invalidState ∧
    ReadAnyGroup.readUntil
        { members := [1], finalised := false, pending := [⟨1, 12, 3⟩],
          current := fun _ => ⟨0, 0⟩ } 1 = .error .invalidState := by
  have h := readAnyGroup_wait_before_finalise_fails
    { members := [1], finalised := false, pending := [⟨1, 12, 3⟩],
      current := fun _ => ⟨0, 0⟩ } 1 [1] rfl
  exact ⟨h.1, h.2.2.1⟩

/-- Claim C4: for every finalised ReadAnyGroup with a pending update,
`readAny()` returns exactly the identifier of the channel that fired, and
immediately afterwards that channel's externally visible current value and
version equal the delivered update; the delivered event is consumed from
the FIFO queue. -/
theorem readAnyGroup_readAny_delivers (g : ReadAnyGroup) (e : UpdateEvent)
    (rest : List UpdateEvent) (hf : g.finalised = true) (hp : g.pending = e :: rest) :
    ∃ g' : ReadAnyGroup, g.readAny = .ok (some (e.channel, g')) ∧
      g'.current e.channel = { value := e.value, version := e.version } ∧
      g'.pending = rest := by
  refine ⟨{ g with pending := rest, current := deliverEvent g.current e }, ?_, ?_, rfl⟩
  · simp [ReadAnyGroup.readAny, hf, hp]
  · simp [deliverEvent]

/-- Witness for C4 at a concrete input: a finalised two-channel group with
one pending update on channel 1 delivers channel 1's identifier and its
new value 12 under version 3. -/
theorem readAnyGroup_readAny_delivers_witness :
    ∃ g' : ReadAnyGroup,
      ReadAnyGroup.readAny
          { members := [1, 2], finalised := true, pending := [⟨1, 12, 3⟩],
            current := fun _ => ⟨0, 0⟩ } = .ok (some (1, g')) ∧
      g'.current 1 = { value := 12, version := 3 } ∧ g'.pending = [] :=
  readAnyGroup_readAny_delivers
    { members := [1, 2], finalised := true, pending := [⟨1, 12, 3⟩],
      current := fun _ => ⟨0, 0⟩ } ⟨1, 12, 3⟩ [] rfl rfl

lemma readUntilSweep_some_observes (target : Nat) (pending : List UpdateEvent) :
    ∀ (cur : Nat → ChannelState) del rem c,
      readUntilSweep target pending cur = some (del, rem, c) →
        ∃ e ∈ del, e.channel = target := by
  induction pending with
  | nil => intro cur del rem c h; simp [readUntilSweep] at h
  | cons e rest ih =>
    intro cur del rem c h
    by_cases hc : e.channel = target
    · rw [readUntilSweep, if_pos hc] at h
      cases h
      exact ⟨e, List.mem_singleton_self e, hc⟩
    · rw [readUntilSweep, if_neg hc] at h
      cases hrec : readUntilSweep target rest (deliverEvent cur e) with
      | none => rw [hrec] at h; cases h
      | some x =>
        obtain ⟨del', rem', c'⟩ := x
        rw [hrec] at h
        obtain ⟨e', he', hch⟩ := ih (deliverEvent cur e) del' rem' c' hrec
        cases h
        exact ⟨e', List.mem_cons_of_mem e he', hch⟩

lemma readUntilSweep_none_target_silent (target : Nat) (pending : List UpdateEvent) :
    ∀ cur : Nat → ChannelState,
      readUntilSweep target pending cur = none →
        ∀ e ∈ pending, e.channel ≠ target := by
  induction pending with
  | nil => intro cur _ e he; cases he
  | cons e rest ih =>
    intro cur h f hf
    by_cases hc : e.channel = target
    · rw [readUntilSweep, if_pos hc] at h; cases h
    · rw [readUntilSweep, if_neg hc] at h
      cases hrec : readUntilSweep target rest (deliverEvent cur e) with
      | none =>
        rcases List.mem_cons.mp hf with hfe | hfr
        · rw [hfe]; exact hc
        · exact ih (deliverEvent cur e) hrec f hfr
      | some x =>
        obtain ⟨del', rem', c'⟩ := x
        rw [hrec] at h
        cases h

/-- Claim C6: for every finalised ReadAnyGroup and target member channel,
`readUntil(channel)` returns only after that channel has fired at least
once since the call began — when it returns, some delivered event carries
the target channel; while the target has not fired among the available
updates it keeps waiting (result `none`); and whenever the target does
fire among the pending updates, no matter how many updates from other
channels are delivered in between, the call returns. -/
theorem readAnyGroup_readUntil_observes_target (g : ReadAnyGroup) (target : Nat)
    (hf : g.finalised = true) :
    (∀ del g', g.readUntil target = .ok (some (del, g')) →
        ∃ e ∈ del, e.channel = target) ∧
    (g.readUntil target = .ok none → ∀ e ∈ g.pending, e.channel ≠ target) ∧
    ((∃ e ∈ g.pending, e.channel = target) →
        ∃ del g', g.readUntil target = .ok (some (del, g'))) := by
  have hrw : g.readUntil target =
      .ok ((readUntilSweep target g.pending g.current).map
        fun x => (x.1, { g with pending := x.2.1, current := x.2.2 })) := by
    simp [ReadAnyGroup.readUntil, hf]
  refine ⟨?_, ?_, ?_⟩
  · intro del g' h
    rw [hrw] at h
    cases hsweep : readUntilSweep target g.pending g.current with
    | none => rw [hsweep] at h; simp at h
    | some x =>
      obtain ⟨del', rem', c'⟩ := x
      rw [hsweep] at h
      simp only [Option.map_some', Except.ok.injEq, Option.some.injEq,
        Prod.mk.injEq] at h
      rw [← h.1]
      exact readUntilSweep_some_observes target g.pending g.current del' rem' c' hsweep
  · intro h
    rw [hrw] at h
    cases hsweep : readUntilSweep target g.pending g.current with
    | none => exact readUntilSweep_none_target_silent target g.pending g.current hsweep
    | some x => rw [hsweep] at h; simp at h
  · intro h
    cases hsweep : readUntilSweep target g.pending g.current with
    | none =>
      obtain ⟨e, he, hch⟩ := h
      exact absurd hch
        (readUntilSweep_none_target_silent target g.pending g.current hsweep e he)
    | some x =>
      refine ⟨x.1, { g with pending := x.2.1, current := x.2.2 }, ?_⟩
      rw [hrw, hsweep]
      rfl

/-- Witness for C6 at a concrete input: a finalised group whose queue
holds an update for channel 2 followed by one for channel 1 returns from
`readUntil 1` with the target among the delivered events. -/
theorem readAnyGroup_readUntil_observes_target_witness :
    ∃ e ∈ ([⟨2, 5, 1⟩, ⟨1, 12, 3⟩] : List UpdateEvent), e.channel = 1 := by
  have h := readAnyGroup_readUntil_observes_target
    { members := [1, 2], finalised := true, pending := [⟨2, 5, 1⟩, ⟨1, 12, 3⟩],
      current := fun _ => ⟨0, 0⟩ } 1 rfl
  exact h.1 [⟨2, 5, 1⟩, ⟨1, 12, 3⟩]
    { members := [1, 2], finalised := true, pending := [],
      current := deliverEvent (deliverEvent (fun _ => ⟨0, 0⟩) ⟨2, 5, 1⟩) ⟨1, 12, 3⟩ }
    (by simp [ReadAnyGroup.readUntil, readUntilSweep, deliverEvent])

lemma versionNumber_defaultAt_eq (i : Nat) :
    ∀ clock : Int, VersionNumber.defaultAt clock i = .stamp (clock + i) := by
  induction i with
  | zero => intro clock; simp [VersionNumber.defaultAt, VersionNumber.fresh]
  | succ n ih =>
    intro clock
    rw [VersionNumber.defaultAt, ih]
    simp only [VersionNumber.fresh]
    congr 1
    push_cast
    ring

/-- Claim C8: VersionNumber values are totally ordered (the strict
comparison is transitive, irreflexive and trichotomous); every
default-constructed marker compares strictly greater than every previously
constructed default marker, so two independently default-constructed
markers are never equal; and the explicit null marker compares strictly
less than every other VersionNumber, including one constructed from a
wall-clock time in the past. -/
theorem versionNumber_total_order (a b c : VersionNumber) (clock t : Int) (i j : Nat) :
    (a.lt b = true → b.lt c = true → a.lt c = true) ∧
    (a.lt a = false) ∧
    (a.lt b = true ∨ b.lt a = true ∨ a = b) ∧
    (i < j →
      (VersionNumber.defaultAt clock i).lt (VersionNumber.defaultAt clock j) = true ∧
      VersionNumber.defaultAt clock i ≠ VersionNumber.defaultAt clock j) ∧
    (a ≠ .null → VersionNumber.lt .null a = true) ∧
    (VersionNumber.lt .null (VersionNumber.ofTime t) = true) := by
  refine ⟨?_, ?_, ?_, ?_, ?_, ?_⟩
  · intro hab hbc
    cases a <;> cases b <;> cases c <;> simp_all [VersionNumber.lt] <;> omega
  · cases a <;> simp [VersionNumber.lt]
  · cases a <;> cases b <;> simp [VersionNumber.lt] <;> omega
  · intro hij
    rw [versionNumber_defaultAt_eq, versionNumber_defaultAt_eq]
    constructor
    · simp only [VersionNumber.lt]
      simp
      omega
    · intro h
      rw [VersionNumber.stamp.injEq] at h
      omega
  · intro ha
    cases a with
    | null => exact absurd rfl ha
    | stamp t2 => rfl
  · rfl

/-- Witness for C8 at concrete inputs: transitivity through null, stamp 0
and stamp 1; the first default marker from clock 5 is strictly below and
different from the second; and null is below a marker stamped two hours in
the past. -/
theorem versionNumber_total_order_witness :
    (VersionNumber.null.lt (.stamp 1) = true) ∧
    ((VersionNumber.defaultAt 5 0).lt (VersionNumber.defaultAt 5 1) = true ∧
      VersionNumber.defaultAt 5 0 ≠ VersionNumber.defaultAt 5 1) ∧
    (VersionNumber.lt .null (.stamp 42) = true) ∧
    (VersionNumber.lt .null (VersionNumber.ofTime (-7200)) = true) := by
  have h := versionNumber_total_order .null (.stamp 0) (.stamp 1) 5 (-7200) 0 1
  have h2 := versionNumber_total_order (.stamp 42) (.stamp 0) (.stamp 1) 5 (-7200) 0 1
  exact ⟨h.1 rfl rfl, h.2.2.2.1 (by decide), h2.2.2.2.2.1 (by decide), h.2.2.2.2.2⟩

/-- Claim C9: constructing a VersionNumber from a time value and then
calling `getTime()` returns exactly that time — a round-trip at the public
VersionNumber interface. -/
theorem versionNumber_getTime_roundtrip (t : Int) :
    (VersionNumber.ofTime t).getTime = some t := rfl

lemma peer_isFeeding_iff (p : Peer) :
    p.isFeeding = true ↔
      (p.ptype = "ApplicationModule" ∨ p.ptype = "Device") ∧ p.pdir ≠ "consuming" := by
  simp [Peer.isFeeding]

lemma countP_cons_feeding (p : Peer) (ps : List Peer) (h : p.isFeeding = true) :
    (p :: ps).countP Peer.isFeeding = ps.countP Peer.isFeeding + 1 := by
  simp [List.countP_cons, h]

lemma countP_cons_not_feeding (p : Peer) (ps : List Peer) (h : p.isFeeding = false) :
    (p :: ps).countP Peer.isFeeding = ps.countP Peer.isFeeding := by
  simp [List.countP_cons, h]

lemma scanPeers_error_code (ps : List Peer) :
    ∀ feeder moduleList k, scanPeers ps feeder moduleList = .error k → k = 1 := by
  induction ps with
  | nil => intro feeder moduleList k h; cases h
  | cons p ps ih =>
    intro feeder moduleList k h
    by_cases htype : p.ptype = "ApplicationModule" ∨ p.ptype = "Device"
    · rw [scanPeers, if_pos htype] at h
      by_cases hdir : p.pdir = "consuming"
      · rw [if_pos hdir] at h
        exact ih _ _ _ h
      · rw [if_neg hdir] at h
        cases feeder with
        | none => rw [if_neg (by simp)] at h; exact ih _ _ _ h
        | some f => rw [if_pos (by simp)] at h; cases h; rfl
    · rw [scanPeers, if_neg htype] at h
      exact ih _ _ _ h

lemma scanPeers_error_iff (ps : List Peer) :
    ∀ feeder moduleList, scanPeers ps feeder moduleList = .error 1 ↔
      ((feeder.isSome = true ∧ 1 ≤ ps.countP Peer.isFeeding) ∨
        2 ≤ ps.countP Peer.isFeeding) := by
  induction ps with
  | nil =>
    intro feeder moduleList
    simp [scanPeers]
  | cons p ps ih =>
    intro feeder moduleList
    by_cases htype : p.ptype = "ApplicationModule" ∨ p.ptype = "Device"
    · by_cases hdir : p.pdir = "consuming"
      · have hfeed : p.isFeeding = false := by
          rw [← Bool.not_eq_true, peer_isFeeding_iff]
          intro hcontra
          exact hcontra.2 hdir
        rw [scanPeers, if_pos htype, if_pos hdir, countP_cons_not_feeding p ps hfeed]
        exact ih feeder (setInsert moduleList (peerLabel p))
      · have hfeed : p.isFeeding = true := (peer_isFeeding_iff p).mpr ⟨htype, hdir⟩
        rw [scanPeers, if_pos htype, if_neg hdir, countP_cons_feeding p ps hfeed]
        cases feeder with
        | some f =>
          rw [if_pos (by simp)]
          constructor
          · intro _
            exact Or.inl ⟨by simp, by omega⟩
          · intro _
            rfl
        | none =>
          rw [if_neg (by simp), ih (some (peerLabel p)) moduleList]
          constructor
          · intro h
            rcases h with h | h
            · exact Or.inr (by omega)
            · exact Or.inr (by omega)
          · intro h
            rcases h with h | h
            · exact absurd h.1 (by simp)
            · exact Or.inl ⟨by simp, by omega⟩
    · have hfeed : p.isFeeding = false := by
        rw [← Bool.not_eq_true, peer_isFeeding_iff]
        intro hcontra
        exact htype hcontra.1
      rw [scanPeers, if_neg htype, countP_cons_not_feeding p ps hfeed]
      exact ih feeder moduleList

lemma scanPeers_ok_feeder (ps : List Peer) :
    ∀ feeder moduleList f ml', scanPeers ps feeder moduleList = .ok (f, ml') →
      (f.isSome = true ↔ (feeder.isSome = true ∨ 1 ≤ ps.countP Peer.isFeeding)) := by
  induction ps with
  | nil =>
    intro feeder moduleList f ml' h
    cases h
    simp
  | cons p ps ih =>
    intro feeder moduleList f ml' h
    by_cases htype : p.ptype = "ApplicationModule" ∨ p.ptype = "Device"
    · by_cases hdir : p.pdir = "consuming"
      · have hfeed : p.isFeeding = false := by
          rw [← Bool.not_eq_true, peer_isFeeding_iff]
          intro hcontra
          exact hcontra.2 hdir
        rw [scanPeers, if_pos htype, if_pos hdir] at h
        rw [countP_cons_not_feeding p ps hfeed]
        exact ih _ _ _ _ h
      · have hfeed : p.isFeeding = true := (peer_isFeeding_iff p).mpr ⟨htype, hdir⟩
        rw [scanPeers, if_pos htype, if_neg hdir] at h
        rw [countP_cons_feeding p ps hfeed]
        cases feeder with
        | some fd => rw [if_pos (by simp)] at h; cases h
        | none =>
          rw [if_neg (by simp)] at h
          rw [ih _ _ _ _ h]
          constructor
          · intro _
            exact Or.inr (by omega)
          · intro _
            exact Or.inl (by simp)
    · have hfeed : p.isFeeding = false := by
        rw [← Bool.not_eq_true, peer_isFeeding_iff]
        intro hcontra
        exact htype hcontra.1
      rw [scanPeers, if_neg htype] at h
      rw [countP_cons_not_feeding p ps hfeed]
      exact ih _ _ _ _ h

/-- Claim C10: variables whose direction is control_system_to_application
or control_system_to_application_with_return are skipped and leave
moduleConnections unchanged; for every other variable node, parseVariable
terminates the program with exit status 1 if and only if the node's
connections contain zero, or more than one, ApplicationModule/Device peers
with a non-consuming (feeding) direction. -/
theorem parseVariable_exit1_iff (mc : ModuleConnections) (node : VarNode) :
    ((node.direction = "control_system_to_application" ∨
        node.direction = "control_system_to_application_with_return") →
      parseVariable mc node = .ok mc) ∧
    (node.direction ≠ "control_system_to_application" →
      node.direction ≠ "control_system_to_application_with_return" →
      (parseVariable mc node = .error 1 ↔ feedingPeerCount node ≠ 1)) := by
  constructor
  · intro hdir
    rw [parseVariable, if_pos hdir]
  · intro h1 h2
    rw [parseVariable, if_neg (by
      intro hcontra
      rcases hcontra with hcontra | hcontra
      · exact h1 hcontra
      · exact h2 hcontra)]
    cases hscan : scanPeers node.connections none [] with
    | error k =>
      have hk : k = 1 := scanPeers_error_code node.connections none [] k hscan
      subst hk
      have hcnt := (scanPeers_error_iff node.connections none []).mp hscan
      simp only [Option.isSome_none] at hcnt
      rcases hcnt with hcnt | hcnt
      · exact absurd hcnt.1 (by simp)
      · constructor
        · intro _
          show node.connections.countP Peer.isFeeding ≠ 1
          omega
        · intro _; rfl
    | ok x =>
      obtain ⟨f, ml'⟩ := x
      have hno2 : ¬ (2 ≤ node.connections.countP Peer.isFeeding) := by
        intro hcontra
        have : scanPeers node.connections none [] = .error 1 :=
          (scanPeers_error_iff node.connections none []).mpr (Or.inr hcontra)
        rw [hscan] at this
        cases this
      have hfiff := scanPeers_ok_feeder node.connections none [] f ml' hscan
      simp only [Option.isSome_none, false_or] at hfiff
      cases f with
      | none =>
        have hcnt0 : node.connections.countP Peer.isFeeding = 0 := by
          by_contra hne
          have hge : (1 : Nat) ≤ node.connections.countP Peer.isFeeding := by omega
          have := hfiff.mpr (Or.inr hge)
          simp at this
        constructor
        · intro _
          show node.connections.countP Peer.isFeeding ≠ 1
          omega
        · intro _; rfl
      | some feeder =>
        have hge1 : 1 ≤ node.connections.countP Peer.isFeeding := by
          rcases hfiff.mp rfl with hc | hc
          · exact absurd hc (by simp)
          · exact hc
        have hcount1 : node.connections.countP Peer.isFeeding = 1 := by omega
        constructor
        · intro hcontra
          cases hcontra
        · intro hcontra
          exact absurd hcount1 hcontra

/-- Witness for C10 at concrete inputs: a control-system-direction node is
skipped with moduleConnections unchanged, and a node with no feeding peer
exits with status 1. -/
theorem parseVariable_exit1_iff_witness :
    parseVariable []
        { direction := "control_system_to_application", connections := [] } = .ok [] ∧
    parseVariable []
        { direction := "application_to_control_system",
          connections := [⟨"ApplicationModule", "consuming", "ModA", ""⟩] } = .error 1 := by
  constructor
  · exact (parseVariable_exit1_iff []
      { direction := "control_system_to_application", connections := [] }).1 (Or.inl rfl)
  · exact (parseVariable_exit1_iff []
      { direction := "application_to_control_system",
        connections := [⟨"ApplicationModule", "consuming", "ModA", ""⟩] }).2
      (by decide) (by decide) |>.mpr (by decide)
